import Mathlib

/-!
Verification of the DDS DPU data-plane core against its specification.

Shallow embedding of:
 - the cuckoo cache table (src/Common/Source/DPU/CacheTable.c), modelled in the
   bucket-granularity occupancy mode (CACHE_TABLE_OCC_GRANULARITY_BUCKET);
 - the data-plane engine of the storage back end
   (src/StorageEngine/DDSBackEndDPUService/Source/FileBackEnd.c):
   the per-wr-id branches of ProcessBuffCqEvents, ExecuteRequests,
   DistanceBetweenPointers, CheckAndProcessIOCompletions (batched branch),
   the RDMA_CM_EVENT_ESTABLISHED branch of ProcessCmEvents, AllocConns and
   FindConnId scan bounds.

Compile-time constants that live in headers not present in the sources
(bucket count power, bucket size, capacity, the two hash functions, ring
sizes, message-header sizes, the IO_PENDING error code) are parameters of
the embedding; the structure of every function is translated from the C
sources.
-/

namespace DDS

/-- Bitwise NOT on a 32-bit hash value: the C expression ~h on uint32_t. -/
def bitNot32 (h : Nat) : Nat := h ^^^ 0xFFFFFFFF

/-! ## Cuckoo cache table (src/Common/Source/DPU/CacheTable.c) -/

/-- CacheItemT: a key/value record.  The opaque fixed-size value is a Nat. -/
structure CacheItem where
  key : Nat
  val : Nat
deriving DecidableEq, Repr

/-- CacheElementT in bucket-granularity mode: the item plus its two hashes. -/
structure CacheElement where
  item : CacheItem
  hash1 : Nat
  hash2 : Nat
deriving DecidableEq, Repr

/-- The all-zero element, as produced by memset 0. -/
def defaultElem : CacheElement := ⟨⟨0, 0⟩, 0, 0⟩

/-- CacheBucketT: the parallel hash-stamp vector and element array, plus the
bucket-granularity occupied flag.  Both lists have length BUCKET_SIZE. -/
structure Bucket where
  occ : Bool
  stamps : List Nat
  elems : List CacheElement
deriving DecidableEq, Repr

/-- CacheTableT: the array of buckets. -/
structure Table where
  buckets : List Bucket
deriving DecidableEq, Repr

/-- Compile-time parameters of CacheTable.h and the two hash functions of
HashFunctions.h (external collaborators per the specification). -/
structure Params where
  power : Nat      -- CACHE_TABLE_BUCKET_COUNT_POWER
  bucketSize : Nat -- CACHE_TABLE_BUCKET_SIZE
  capacity : Nat   -- CACHE_TABLE_CAPACITY
  h1 : Nat → Nat   -- HASH_FUNCTION1 on the key
  h2 : Nat → Nat   -- HASH_FUNCTION2 on the key

/-- CACHE_TABLE_BUCKET_COUNT = 1 << CACHE_TABLE_BUCKET_COUNT_POWER. -/
def Params.bucketCount (p : Params) : Nat := 2 ^ p.power

/-- mask = CACHE_TABLE_BUCKET_COUNT - 1. -/
def Params.mask (p : Params) : Nat := 2 ^ p.power - 1

/-- maxDepth = CACHE_TABLE_BUCKET_COUNT_POWER << 2, capped at
CACHE_TABLE_CAPACITY (CacheTable.c lines 50-53). -/
def Params.maxDepth (p : Params) : Nat := min (p.power * 4) p.capacity

/-- CacheTable->Table[i]. -/
def Table.bucketAt (t : Table) (i : Nat) : Bucket :=
  t.buckets.getD i ⟨false, [], []⟩

/-- Store a bucket back at index i. -/
def Table.setBucket (t : Table) (i : Nat) (b : Bucket) : Table :=
  ⟨t.buckets.set i b⟩

/-- A freshly zeroed bucket (InitCacheTable memsets every bucket to 0). -/
def emptyBucket (size : Nat) : Bucket :=
  ⟨false, List.replicate size 0, List.replicate size defaultElem⟩

/-- InitCacheTable: all buckets zeroed. -/
def emptyTable (count size : Nat) : Table :=
  ⟨List.replicate count (emptyBucket size)⟩

/-- The element scan inside AddToCacheTable (lines 83-130): the first slot
whose stamp is zero wins as an empty slot; a slot whose stamp equals the
carrier hash and whose key equals the carrier key wins as a match;
otherwise the scan continues. -/
inductive ScanHit where
  | empty (idx : Nat)
  | matched (idx : Nat)
deriving DecidableEq, Repr

/-- The AddToCacheTable bucket scan, from slot idx on. -/
def addScanFrom (stamps : List Nat) (elems : List CacheElement)
    (hv key idx : Nat) : Option ScanHit :=
  match stamps, elems with
  | s :: ss, e :: es =>
    if s = 0 then some (.empty idx)
    else if s = hv then
      if e.item.key = key then some (.matched idx)
      else addScanFrom ss es hv key (idx + 1)
    else addScanFrom ss es hv key (idx + 1)
  | _, _ => none

/-- The AddToCacheTable bucket scan over a whole bucket. -/
def addScan (stamps : List Nat) (elems : List CacheElement)
    (hv key : Nat) : Option ScanHit :=
  addScanFrom stamps elems hv key 0

/-- The scan shared by DeleteFromCacheTable and LookUpCacheTable
(first slot with a matching stamp and a matching key), from slot idx on. -/
def findKeyIdxFrom (stamps : List Nat) (elems : List CacheElement)
    (hv key idx : Nat) : Option Nat :=
  match stamps, elems with
  | s :: ss, e :: es =>
    if s = hv then
      if e.item.key = key then some idx
      else findKeyIdxFrom ss es hv key (idx + 1)
    else findKeyIdxFrom ss es hv key (idx + 1)
  | _, _ => none

/-- The lookup/delete bucket scan over a whole bucket. -/
def findKeyIdx (stamps : List Nat) (elems : List CacheElement)
    (hv key : Nat) : Option Nat :=
  findKeyIdxFrom stamps elems hv key 0

/-- Result of the forward displacement loop of AddToCacheTable. -/
structure AddLoopResult where
  table : Table
  carrier : CacheElement
  offset : Nat
  success : Bool
deriving DecidableEq

/-- The forward loop of AddToCacheTable (lines 74-165), bucket-granularity
occupancy: each iteration sets the target bucket's Occ to 1 and clears it
to 0 on every path out of the iteration, so the stored bucket carries
occ = false.  On a full bucket the element at the round-robin offset is
displaced: the victim is extracted, the carrier stored with its Hash1 as
the stamp, and the victim continues as the carrier with its two hashes
swapped. -/
def addLoop (p : Params) : Nat → Table → CacheElement → Nat → AddLoopResult
  | 0, t, carrier, offset => ⟨t, carrier, offset, false⟩
  | fuel + 1, t, carrier, offset =>
    let pos := carrier.hash1 &&& p.mask
    let bkt := t.bucketAt pos
    match addScan bkt.stamps bkt.elems carrier.hash1 carrier.item.key with
    | some (.empty e) =>
      ⟨t.setBucket pos { bkt with
          elems := bkt.elems.set e carrier,
          stamps := bkt.stamps.set e carrier.hash1,
          occ := false },
        carrier, offset, true⟩
    | some (.matched e) =>
      ⟨t.setBucket pos { bkt with
          elems := bkt.elems.set e
            { bkt.elems.getD e defaultElem with item := carrier.item },
          occ := false },
        carrier, offset, true⟩
    | none =>
      let victim := bkt.elems.getD offset defaultElem
      let t1 := t.setBucket pos { bkt with
          elems := bkt.elems.set offset carrier,
          stamps := bkt.stamps.set offset carrier.hash1,
          occ := false }
      let carrier1 : CacheElement :=
        { victim with hash1 := victim.hash2, hash2 := victim.hash1 }
      let offset1 := if offset + 1 = p.bucketSize then 0 else offset + 1
      addLoop p fuel t1 carrier1 offset1

/-- The rollback loop of AddToCacheTable (lines 172-215).  The bucket is
addressed by the carrier's pre-swap Hash2, the offset is stepped back
modulo the bucket size, the carrier's hashes are swapped back, the resident
element is extracted and the carrier stored in its place; the stamp is
written from the post-swap Hash2 of the stored carrier, exactly as line 199
does. -/
def rollbackLoop (p : Params) :
    Nat → Table → CacheElement → Nat → Table × CacheElement × Nat
  | 0, t, carrier, offset => (t, carrier, offset)
  | fuel + 1, t, carrier, offset =>
    let pos := carrier.hash2 &&& p.mask
    let offset1 := if offset = 0 then p.bucketSize - 1 else offset - 1
    let bkt := t.bucketAt pos
    let carrier1 : CacheElement :=
      { carrier with hash1 := carrier.hash2, hash2 := carrier.hash1 }
    let victim := bkt.elems.getD offset1 defaultElem
    let t1 := t.setBucket pos { bkt with
        elems := bkt.elems.set offset1 carrier1,
        stamps := bkt.stamps.set offset1 carrier1.hash2,
        occ := false }
    rollbackLoop p fuel t1 victim offset1

/-- AddToCacheTable (lines 45-220): compute the two hashes (with the
collision fix Hash2 = ~Hash1), run the forward displacement loop up to
maxDepth, and on failure run the rollback loop; returns 0 on success and
-1 when the table is full. -/
def AddToCacheTable (p : Params) (t : Table) (item : CacheItem) :
    Table × Int :=
  let h1v := p.h1 item.key
  let h2v0 := p.h2 item.key
  let h2v := if h1v = h2v0 then bitNot32 h1v else h2v0
  let carrier : CacheElement := ⟨item, h1v, h2v⟩
  let r := addLoop p p.maxDepth t carrier 0
  if r.success then (r.table, 0)
  else
    let rb := rollbackLoop p p.maxDepth r.table r.carrier r.offset
    (rb.1, -1)

/-- DeleteFromCacheTable (lines 226-314), bucket-granularity occupancy.
The first-hash bucket is scanned; on a hit the element and stamp are
zeroed and the bucket Occ cleared.  Otherwise the second-hash bucket is
scanned; on a hit the element and stamp are zeroed and — as the source
does on its second-hash exit path, line 304 — the bucket Occ is left SET
to 1; on a miss it is cleared. -/
def DeleteFromCacheTable (p : Params) (t : Table) (key : Nat) : Table :=
  let hash1 := p.h1 key
  let b1 := hash1 &&& p.mask
  let bkt1 := t.bucketAt b1
  match findKeyIdx bkt1.stamps bkt1.elems hash1 key with
  | some e =>
    t.setBucket b1 { bkt1 with
      elems := bkt1.elems.set e defaultElem,
      stamps := bkt1.stamps.set e 0,
      occ := false }
  | none =>
    let t1 := t.setBucket b1 { bkt1 with occ := false }
    let h2v0 := p.h2 key
    let hash2 := if hash1 = h2v0 then bitNot32 hash1 else h2v0
    let b2 := hash2 &&& p.mask
    let bkt2 := t1.bucketAt b2
    match findKeyIdx bkt2.stamps bkt2.elems hash2 key with
    | some e =>
      t1.setBucket b2 { bkt2 with
        elems := bkt2.elems.set e defaultElem,
        stamps := bkt2.stamps.set e 0,
        occ := true }
    | none =>
      t1.setBucket b2 { bkt2 with occ := false }

/-- LookUpCacheTable (lines 320-402), bucket-granularity occupancy: if the
first-hash bucket is occupied, fall through to the second hash; scan for a
matching stamp and key; if the second-hash bucket is occupied, fail. -/
def LookUpCacheTable (p : Params) (t : Table) (key : Nat) :
    Option CacheItem :=
  let hash1 := p.h1 key
  let bkt1 := t.bucketAt (hash1 &&& p.mask)
  let firstHit : Option CacheItem :=
    if bkt1.occ then none
    else
      match findKeyIdx bkt1.stamps bkt1.elems hash1 key with
      | some e => some (bkt1.elems.getD e defaultElem).item
      | none => none
  match firstHit with
  | some it => some it
  | none =>
    let h2v0 := p.h2 key
    let hash2 := if hash1 = h2v0 then bitNot32 hash1 else h2v0
    let bkt2 := t.bucketAt (hash2 &&& p.mask)
    if bkt2.occ then none
    else
      match findKeyIdx bkt2.stamps bkt2.elems hash2 key with
      | some e => some (bkt2.elems.getD e defaultElem).item
      | none => none

/-! ## Data-plane engine
(src/StorageEngine/DDSBackEndDPUService/Source/FileBackEnd.c) -/

/-- DistanceBetweenPointers (lines 2119-2131). -/
def DistanceBetweenPointers (tail head capacity : Nat) : Nat :=
  if head ≤ tail then tail - head else capacity - head + tail

/-- The pattern `x += y; if (x >= RING) x %= RING;` used throughout the
engine for ring-position arithmetic. -/
def wrapAdd (x y ring : Nat) : Nat :=
  if ring ≤ x + y then (x + y) % ring else x + y

/-- The split-state values BUFF_READ_DATA_SPLIT_STATE_NOT_SPLIT and
BUFF_READ_DATA_SPLIT_STATE_SPLIT. -/
inductive SplitState where
  | notSplit
  | split
deriving DecidableEq, Repr

/-- The work requests a buffer connection can post, tagged with the posted
DMA length where one is set by the handler. -/
inductive BuffWr where
  | reqMetaRead
  | reqDataRead (len : Nat)
  | reqDataReadSplit (len : Nat)
  | reqMetaWrite
  | respMetaRead
  | respDataWrite (len : Nat)
  | respDataWriteSplit (len : Nat)
  | respMetaWrite
deriving DecidableEq, Repr

/-- Net effect of the BUFF_READ_REQUEST_META_WR_ID completion branch. -/
structure ReqMetaEffect where
  posts : List BuffWr
  newHead : Nat
  splitState : Option SplitState
deriving DecidableEq, Repr

/-- The BUFF_READ_REQUEST_META_WR_ID branch of ProcessBuffCqEvents
(lines 2172-2266): progress and tail are the two words fetched from the
host, head is RequestRing.Head.  Not ready (tail == head or tail !=
progress): re-post only the meta read.  Ready, contiguous (progress >
head): one data read of progress - head bytes, split state NOT_SPLIT.
Ready, wrapped: the split data read of progress bytes is posted first,
then the data read of DDS_REQUEST_RING_BYTES - head bytes, split state
SPLIT.  In both ready cases Head is set to progress and the head-update
meta write is posted last. -/
def buffReadRequestMeta (reqRingBytes head progress tail : Nat) :
    ReqMetaEffect :=
  if tail = head ∨ tail ≠ progress then
    ⟨[.reqMetaRead], head, none⟩
  else if head < progress then
    ⟨[.reqDataRead (progress - head), .reqMetaWrite], progress,
      some .notSplit⟩
  else
    ⟨[.reqDataReadSplit progress, .reqDataRead (reqRingBytes - head),
        .reqMetaWrite], progress, some .split⟩

/-- Net effect of the BUFF_READ_RESPONSE_META_WR_ID completion branch. -/
structure RespMetaEffect where
  posts : List BuffWr
  newTailC : Nat
  splitState : Option SplitState
deriving DecidableEq, Repr

/-- The BUFF_READ_RESPONSE_META_WR_ID branch of ProcessBuffCqEvents
(lines 2302-2444): progress and head are the two words fetched from the
host; tailC (tailStart) and tailB (tailEnd) are ResponseRing.TailC and
ResponseRing.TailB.  Nothing pending (tailC == tailB): no post.  Host
mid-update (head != progress) or free distance from tailC to head smaller
than the pending bytes: re-post only the response meta read.  Otherwise
post the response data write(s) — split when the range crosses the ring
end, the split write first — then the TailC meta write, and advance TailC
by the pending bytes modulo DDS_RESPONSE_RING_BYTES. -/
def buffReadResponseMeta (respRingBytes tailB tailC progress head : Nat) :
    RespMetaEffect :=
  if tailC = tailB then ⟨[], tailC, none⟩
  else
    let totalResponseBytes :=
      DistanceBetweenPointers tailB tailC respRingBytes
    if head ≠ progress then ⟨[.respMetaRead], tailC, none⟩
    else
      let distance :=
        if head ≤ tailC then head + respRingBytes - tailC
        else head - tailC
      if distance < totalResponseBytes then ⟨[.respMetaRead], tailC, none⟩
      else if tailC + totalResponseBytes ≤ respRingBytes then
        ⟨[.respDataWrite totalResponseBytes, .respMetaWrite],
          (tailC + totalResponseBytes) % respRingBytes, some .notSplit⟩
      else
        ⟨[.respDataWriteSplit
            (totalResponseBytes - (respRingBytes - tailC)),
          .respDataWrite (respRingBytes - tailC), .respMetaWrite],
          (tailC + totalResponseBytes) % respRingBytes, some .split⟩

/-! ### ExecuteRequests (lines 1845-2113) -/

/-- sizeof(FileIOSizeT): the u32 size prefix of every framed record. -/
def u32Bytes : Nat := 4

/-- Compile-time parameters of the engine: ring sizes, the sizes of the
request and ack headers (their structs live in headers outside the given
sources), the outstanding-context pool size, whether
RING_BUFFER_RESPONSE_BATCH_ENABLED is defined, and the numeric value of
DDS_ERROR_CODE_IO_PENDING. -/
structure ExecParams where
  reqRingBytes : Nat   -- BACKEND_REQUEST_BUFFER_SIZE = DDS_REQUEST_RING_BYTES
  respRingBytes : Nat  -- BACKEND_RESPONSE_BUFFER_SIZE = DDS_RESPONSE_RING_BYTES
  reqHdrBytes : Nat    -- sizeof(BuffMsgF2BReqHeader)
  ackHdrBytes : Nat    -- sizeof(BuffMsgB2FAckHeader)
  maxOutstanding : Nat -- DDS_MAX_OUTSTANDING_IO
  batchEnabled : Bool  -- RING_BUFFER_RESPONSE_BATCH_ENABLED
  ioPending : Nat      -- DDS_ERROR_CODE_IO_PENDING

/-- The response-ring alignment sizeof(FileIOSizeT) + sizeof(BuffMsgB2FAckHeader). -/
def ExecParams.alignment (p : ExecParams) : Nat := u32Bytes + p.ackHdrBytes

/-- One framed request record as laid out on the request ring:
the u32 size prefix (covering the whole record), and the RequestId and
Bytes fields of its BuffMsgF2BReqHeader. -/
structure ReqRecord where
  reqSize : Nat
  requestId : Nat
  bytes : Nat
deriving DecidableEq, Repr

/-- A response stub as written to the response staging ring at reservation
time, together with the IsRead flag recorded in the request context slot.
The SplittableBuffer fields of the context are not modelled: they do not
affect the stub sequence. -/
structure RespStub where
  pos : Nat
  respSize : Nat
  requestId : Nat
  result : Nat
  isRead : Bool
deriving DecidableEq, Repr

/-- The mutable locals of the ExecuteRequests parse loop. -/
structure ExecState where
  progressReq : Nat
  progressResp : Nat
  bytesParsed : Nat
  nextCtx : Nat
  totalRespSize : Nat
  stubs : List RespStub
deriving DecidableEq, Repr

/-- One iteration of the ExecuteRequests parse loop (lines 1910-2076) on
the record at progressReq.  A record whose size beyond the u32 prefix
exceeds sizeof(BuffMsgF2BReqHeader) is a write: its response reservation
is one aligned header.  Otherwise it is a read: the reservation is the
header plus header.Bytes, rounded up to the alignment.  Either way a stub
{size, RequestId, Result = IO_PENDING} is written at progressResp, the
context slot advances modulo DDS_MAX_OUTSTANDING_IO, and both ring
cursors advance with wrap. -/
def execStep (p : ExecParams) (s : ExecState) (r : ReqRecord) : ExecState :=
  let curReqSize := r.reqSize - u32Bytes
  let nextCtx1 := if s.nextCtx + 1 = p.maxOutstanding then 0 else s.nextCtx + 1
  if p.reqHdrBytes < curReqSize then
    let respSize := u32Bytes + p.ackHdrBytes
    { progressReq := wrapAdd s.progressReq r.reqSize p.reqRingBytes,
      progressResp := wrapAdd s.progressResp respSize p.respRingBytes,
      bytesParsed := s.bytesParsed + r.reqSize,
      nextCtx := nextCtx1,
      totalRespSize := s.totalRespSize + respSize,
      stubs := s.stubs ++
        [⟨s.progressResp, respSize, r.requestId, p.ioPending, false⟩] }
  else
    let alignment := u32Bytes + p.ackHdrBytes
    let respSize0 := alignment + r.bytes
    let respSize :=
      if respSize0 % alignment ≠ 0 then
        respSize0 + (alignment - respSize0 % alignment)
      else respSize0
    { progressReq := wrapAdd s.progressReq r.reqSize p.reqRingBytes,
      progressResp := wrapAdd s.progressResp respSize p.respRingBytes,
      bytesParsed := s.bytesParsed + r.reqSize,
      nextCtx := nextCtx1,
      totalRespSize := s.totalRespSize + respSize,
      stubs := s.stubs ++
        [⟨s.progressResp, respSize, r.requestId, p.ioPending, true⟩] }

/-- The ExecuteRequests parse loop: while bytesParsed != bytesTotal one
record is consumed per iteration; the received byte range is given as its
parsed record sequence, whose sizes sum to bytesTotal. -/
def execLoop (p : ExecParams) : ExecState → List ReqRecord → ExecState
  | s, [] => s
  | s, r :: rs => execLoop p (execStep p s r) rs

/-- Outcome of ExecuteRequests: the overflow check at lines 2096-2105
calls exit(-1); otherwise ResponseRing.TailA is advanced to the end of the
reservation. -/
inductive ExecOutcome where
  | aborted
  | ok (newTailA : Nat)
deriving DecidableEq, Repr

/-- ExecuteRequests (lines 1845-2113).  head is RequestRing.Head (the
tail of the received range), tailA and tailB are ResponseRing.TailA and
TailB, nextCtx0 is BuffConn->NextRequestContext.  When batching is
enabled one alignment-sized batch-framing slot is reserved first; the
final totalRespSize is the value written into that slot's u32 at line
2111.  If totalRespSize reaches the free capacity measured from TailA to
TailB the process aborts; otherwise TailA becomes the final reservation
cursor. -/
def ExecuteRequests (p : ExecParams) (head tailA tailB nextCtx0 : Nat)
    (recs : List ReqRecord) : ExecOutcome × ExecState :=
  let bytesTotal := (recs.map (·.reqSize)).sum
  let headReq :=
    if bytesTotal ≤ head then head - bytesTotal
    else p.reqRingBytes + head - bytesTotal
  let respRingCapacity :=
    if tailB ≤ tailA then p.respRingBytes - tailA + tailB
    else tailB - tailA
  let s0 : ExecState :=
    { progressReq := headReq, progressResp := tailA, bytesParsed := 0,
      nextCtx := nextCtx0, totalRespSize := 0, stubs := [] }
  let s1 :=
    if p.batchEnabled then
      { s0 with
        progressResp := wrapAdd tailA p.alignment p.respRingBytes,
        totalRespSize := p.alignment }
    else s0
  let sF := execLoop p s1 recs
  if respRingCapacity ≤ sF.totalRespSize then (.aborted, sF)
  else (.ok sF.progressResp, sF)

/-! ### CheckAndProcessIOCompletions (lines 2541-2692, batched branch) -/

/-- The framed response record decoded at a given offset of the response
staging buffer: its u32 size word and its Result word. -/
structure RespRec where
  size : Nat
  result : Nat
deriving DecidableEq, Repr

/-- The completion-sweep loop (lines 2579-2600): walk from head1 while the
distance covered from head2 differs from totalRespSize; stop at the first
record whose Result is still IO_PENDING, otherwise step over the record.
The C loop has no bound; fuel makes the recursion structural and the
theorems below hold for every fuel. -/
def sweepLoop (ring ioPending : Nat) (recAt : Nat → RespRec)
    (head2 total : Nat) : Nat → Nat → Nat
  | 0, head1 => head1
  | fuel + 1, head1 =>
    if DistanceBetweenPointers head1 head2 ring = total then head1
    else if (recAt head1).result = ioPending then head1
    else
      sweepLoop ring ioPending recAt head2 total fuel
        (wrapAdd head1 (recAt head1).size ring)

/-- Net effect of one CheckAndProcessIOCompletions pass on one buffer
connection: the new TailB and whether the response-meta read that starts
publication was posted. -/
structure SweepResult where
  newTailB : Nat
  postedMetaRead : Bool
deriving DecidableEq, Repr

/-- One CheckAndProcessIOCompletions pass over one buffer connection
(lines 2559-2627, RING_BUFFER_RESPONSE_BATCH_ENABLED branch).  head1 =
TailB, head2 = TailC, tail = TailA; totalRespSize is the u32 read at
TailC (the batch-framing slot).  If TailA == TailB there is nothing to
do.  If TailB is still at the batch start it is bumped past the framing
slot.  After the sweep, if TailB moved it is updated, and when the
covered distance equals totalRespSize the response-meta read is posted
to start publication. -/
def CheckAndProcessIOCompletions (ring ioPending alignment : Nat)
    (recAt : Nat → RespRec) (tailA tailB tailC fuel : Nat) : SweepResult :=
  let totalRespSize := (recAt tailC).size
  if tailA = tailB then ⟨tailB, false⟩
  else
    let head1 := if tailB = tailC then wrapAdd tailB alignment ring else tailB
    let head1F := sweepLoop ring ioPending recAt tailC totalRespSize fuel head1
    if head1F ≠ tailB then
      ⟨head1F,
        decide (DistanceBetweenPointers head1F tailC ring = totalRespSize)⟩
    else ⟨tailB, false⟩

/-- Position of the k-th framed response record of a batch that starts at
tailC: past the alignment-sized batch-framing slot and the sizes of the
previous records, modulo the ring size. -/
def batchPos (ring tailC alignment : Nat) (sizes : Nat → Nat) (k : Nat) :
    Nat :=
  (tailC + alignment + (Finset.range k).sum sizes) % ring

/-! ### Connection management -/

/-- Lifecycle states of a connection slot (CONN_STATE_*). -/
inductive ConnState where
  | available
  | occupied
  | connected
deriving DecidableEq, Repr

/-- The RDMA_CM_EVENT_ESTABLISHED branch of ProcessCmEvents (lines
1169-1196) for a slot found by FindConnId: the assignment State =
CONN_STATE_CONNECTED sits inside an
`#ifdef DDS_STORAGE_FILE_BACKEND_VERBOSE` block in both the control and
the buffer arm, so it executes only when the verbose flag is compiled
in. -/
def processEstablished (verbose : Bool) (state : ConnState) : ConnState :=
  if verbose then .connected else state

/-- Whether ProcessCtrlCqEvents (line 1690) and ProcessBuffCqEvents (line
2148) process a slot: both skip every slot whose state is not
CONN_STATE_CONNECTED. -/
def cqPassProcesses (state : ConnState) : Bool := state = .connected

/-- AllocConns (lines 176-186): the BuffConns array is allocated with
MaxClients entries. -/
def allocBuffConnsLength (maxClients : Nat) : Nat := maxClients

/-- AllocConns (lines 183-186): the loop assigning BuffId and
NextRequestContext runs over indices 0..MaxBuffs-1. -/
def allocBuffConnsInitialized (maxBuffs : Nat) : List Nat :=
  List.range maxBuffs

/-- The BUFF_CONN arm of the CONNECT_REQUEST handler (lines 1085-1090):
the scan for an AVAILABLE slot runs over indices 0..MaxClients-1 of the
BuffConns array. -/
def buffConnectScanIndices (maxClients : Nat) : List Nat :=
  List.range maxClients

/-- FindConnId (lines 951-956): the BuffConns scan runs over indices
0..MaxBuffs-1. -/
def findConnIdBuffScanIndices (maxBuffs : Nat) : List Nat :=
  List.range maxBuffs

/-! ## Concrete instances used by the counterexamples and witnesses -/

/-- A two-bucket, one-element-per-bucket instantiation: power 1,
capacity 2, so maxDepth = min 4 2 = 2; the hashes send every key
primarily to bucket 0 and secondarily to bucket 1. -/
def pTiny : Params := ⟨1, 1, 2, fun k => 2 * k, fun k => 2 * k + 1⟩

/-- Insert keys 1 then 2 into the empty tiny table: key 1 lands in bucket
0, then insertion of key 2 displaces it to bucket 1. -/
def tTinyA : Table := (AddToCacheTable pTiny (emptyTable 2 1) ⟨1, 11⟩).1

/-- The tiny table holding key 2 in bucket 0 (stamp 4) and key 1 in
bucket 1 (stamp 3); both insertions succeeded. -/
def tTiny : Table := (AddToCacheTable pTiny tTinyA ⟨2, 22⟩).1

/-- A two-bucket, two-element instantiation for the stale-lookup trace:
power 1, bucket size 2, capacity 4, so maxDepth = 4.  Key 1 hashes
primarily to bucket 1 (h1 = 3) and secondarily to bucket 0 (h2 = 2). -/
def pStale : Params :=
  ⟨1, 2, 4, fun k => if k = 4 then 8 else 2 * k + 1,
    fun k => if k = 4 then 9 else 2 * k⟩

/-- Stale-lookup trace, step 1: insert the first value for key 1. -/
def tStaleA : Table := (AddToCacheTable pStale (emptyTable 2 2) ⟨1, 11⟩).1

/-- Step 2: key 2 fills the second slot of bucket 1. -/
def tStaleB : Table := (AddToCacheTable pStale tStaleA ⟨2, 20⟩).1

/-- Step 3: key 3 displaces key 1 from bucket 1 into bucket 0. -/
def tStaleC : Table := (AddToCacheTable pStale tStaleB ⟨3, 30⟩).1

/-- Step 4: re-insert key 1 with the new value 12; the stale copy with
value 11 remains in bucket 0. -/
def tStaleD : Table := (AddToCacheTable pStale tStaleC ⟨1, 12⟩).1

/-- Step 5: key 4 displaces the stale copy of key 1 out of bucket 0; the
stale copy then overwrites the fresh copy in place in bucket 1. -/
def tStale : Table := (AddToCacheTable pStale tStaleD ⟨4, 40⟩).1

/-- A one-element-per-bucket instantiation with a nonempty maxDepth for
the in-place-update witness. -/
def pUpd : Params := ⟨1, 1, 4, fun k => 2 * k, fun k => 2 * k + 1⟩

/-- A table holding key 1 with value 5 in its primary bucket 0. -/
def tUpd : Table :=
  ⟨[⟨false, [2], [⟨⟨1, 5⟩, 2, 3⟩]⟩, emptyBucket 1]⟩

/-- Engine parameters for the ExecuteRequests witnesses: 4 KiB rings, a
28-byte request header, an 8-byte ack header (alignment 12), batching
enabled, IO_PENDING = 1. -/
def pExecW : ExecParams := ⟨4096, 4096, 28, 8, 4, true, 1⟩

/-- Two framed records: a 48-byte write (16 payload bytes) with RequestId
7 and a 32-byte read (28 + 4 = exactly the header size) with RequestId
9. -/
def recsW : List ReqRecord := [⟨48, 7, 16⟩, ⟨32, 9, 8⟩]

/-- Staging-region decode for the completion-sweep witness: a 32-byte
batch (8-byte framing slot at offset 0, 12-byte records at offsets 8 and
20), all Result words 0 (complete). -/
def recAtW : Nat → RespRec :=
  fun pos => if pos = 0 then ⟨32, 0⟩
    else if pos = 8 then ⟨12, 0⟩
    else if pos = 20 then ⟨12, 0⟩
    else ⟨0, 0⟩

/-- Record sizes of the completion-sweep witness batch. -/
def sizesW : Nat → Nat := fun _ => 12

/-! ## Helper lemmas -/

theorem wrapAdd_eq_mod (x y r : Nat) : wrapAdd x y r = (x + y) % r := by
  unfold wrapAdd
  split
  · rfl
  · exact (Nat.mod_eq_of_lt (by omega)).symm

theorem distanceBetweenPointers_self (a r : Nat) :
    DistanceBetweenPointers a a r = 0 := by
  simp [DistanceBetweenPointers]

theorem distance_add_mod (ring a x : Nat) (ha : a < ring) (hx : x < ring) :
    DistanceBetweenPointers ((a + x) % ring) a ring = x := by
  rcases Nat.lt_or_ge (a + x) ring with h | h
  · rw [Nat.mod_eq_of_lt h]
    unfold DistanceBetweenPointers
    split <;> omega
  · have hm : (a + x) % ring = a + x - ring := by
      rw [Nat.mod_eq_sub_mod h, Nat.mod_eq_of_lt (by omega)]
    rw [hm]
    unfold DistanceBetweenPointers
    split <;> omega

theorem distance_add_of_lt (ring a b T : Nat) (ha : a < ring)
    (hb : b < ring)
    (h : DistanceBetweenPointers a b ring + T < ring) :
    DistanceBetweenPointers ((a + T) % ring) b ring =
      DistanceBetweenPointers a b ring + T := by
  unfold DistanceBetweenPointers at h ⊢
  rcases Nat.lt_or_ge (a + T) ring with hc | hc
  · rw [Nat.mod_eq_of_lt hc]
    split at h <;> split <;> omega
  · have hm : (a + T) % ring = a + T - ring := by
      rw [Nat.mod_eq_sub_mod hc, Nat.mod_eq_of_lt (by omega)]
    rw [hm]
    split at h <;> split <;> omega

theorem bucketAt_setBucket_self (t : Table) (i : Nat) (b : Bucket)
    (h : i < t.buckets.length) :
    (t.setBucket i b).bucketAt i = b := by
  simp [Table.setBucket, Table.bucketAt, List.getD_eq_getElem?_getD,
    List.getElem?_set_eq_of_lt b h]

theorem getD_set_self {α : Type} (l : List α) (e : Nat) (a d : α)
    (h : e < l.length) : (l.set e a).getD e d = a := by
  simp [List.getD_eq_getElem?_getD, List.getElem?_set_eq_of_lt a h]

theorem getD_set_ne {α : Type} (l : List α) (i j : Nat) (a d : α)
    (h : i ≠ j) : (l.set i a).getD j d = l.getD j d := by
  simp [List.getD_eq_getElem?_getD, List.getElem?_set_ne h]

/-- If slot e holds a nonzero stamp hv and the key, and every earlier slot
is nonempty and does not match, the AddToCacheTable scan reports an
in-place match at slot e. -/
theorem addScanFrom_matched (hv key : Nat) (hz : hv ≠ 0) :
    ∀ (stamps : List Nat) (elems : List CacheElement) (e idx : Nat),
      e < stamps.length → stamps.length = elems.length →
      stamps.getD e 0 = hv →
      (elems.getD e defaultElem).item.key = key →
      (∀ j < e, stamps.getD j 0 ≠ 0 ∧
        ¬(stamps.getD j 0 = hv ∧
          (elems.getD j defaultElem).item.key = key)) →
      addScanFrom stamps elems hv key idx = some (.matched (idx + e)) := by
  intro stamps
  induction stamps with
  | nil => intro elems e idx he; simp at he
  | cons s ss ih =>
    intro elems e idx he hlen hstamp hkey hprev
    match elems with
    | [] => simp at hlen
    | el :: es =>
      cases e with
      | zero =>
        simp only [List.getD_cons_zero] at hstamp hkey
        rw [addScanFrom, if_neg (by rw [hstamp]; exact hz), if_pos hstamp,
          if_pos hkey, Nat.add_zero]
      | succ e =>
        have h0 := hprev 0 (Nat.succ_pos e)
        simp only [List.getD_cons_zero] at h0
        have hrec :
            addScanFrom ss es hv key (idx + 1) =
              some (.matched (idx + 1 + e)) := by
          refine ih es e (idx + 1) (by simpa using he) (by simpa using hlen)
            (by simpa using hstamp) (by simpa using hkey) ?_
          intro j hj
          simpa using hprev (j + 1) (by omega)
        rw [addScanFrom, if_neg h0.1]
        by_cases hs : s = hv
        · have hk : el.item.key ≠ key := fun hk => h0.2 ⟨hs, hk⟩
          rw [if_pos hs, if_neg hk, hrec]
          congr 2
          omega
        · rw [if_neg hs, hrec]
          congr 2
          omega

/-- If slot e holds stamp hv and the key, and no earlier slot matches,
the lookup/delete scan finds slot e. -/
theorem findKeyIdxFrom_found (hv key : Nat) :
    ∀ (stamps : List Nat) (elems : List CacheElement) (e idx : Nat),
      e < stamps.length → stamps.length = elems.length →
      stamps.getD e 0 = hv →
      (elems.getD e defaultElem).item.key = key →
      (∀ j < e,
        ¬(stamps.getD j 0 = hv ∧
          (elems.getD j defaultElem).item.key = key)) →
      findKeyIdxFrom stamps elems hv key idx = some (idx + e) := by
  intro stamps
  induction stamps with
  | nil => intro elems e idx he; simp at he
  | cons s ss ih =>
    intro elems e idx he hlen hstamp hkey hprev
    match elems with
    | [] => simp at hlen
    | el :: es =>
      cases e with
      | zero =>
        simp only [List.getD_cons_zero] at hstamp hkey
        rw [findKeyIdxFrom, if_pos hstamp, if_pos hkey, Nat.add_zero]
      | succ e =>
        have h0 := hprev 0 (Nat.succ_pos e)
        simp only [List.getD_cons_zero] at h0
        have hrec :
            findKeyIdxFrom ss es hv key (idx + 1) = some (idx + 1 + e) := by
          refine ih es e (idx + 1) (by simpa using he) (by simpa using hlen)
            (by simpa using hstamp) (by simpa using hkey) ?_
          intro j hj
          simpa using hprev (j + 1) (by omega)
        rw [findKeyIdxFrom]
        by_cases hs : s = hv
        · have hk : el.item.key ≠ key := fun hk => h0 ⟨hs, hk⟩
          rw [if_pos hs, if_neg hk, hrec]
          congr 1
          omega
        · rw [if_neg hs, hrec]
          congr 1
          omega

theorem pair_ite_snd {α β : Type} (c : Prop) [Decidable c] (a b : α)
    (s : β) : (if c then (a, s) else (b, s)).2 = s := by
  split <;> rfl

theorem pair_ite_fst {α β : Type} (c : Prop) [Decidable c] (a b : α)
    (s s2 : β) : (if c then (a, s) else (b, s2)).1 = if c then a else b := by
  split <;> rfl

/-- Stubs are emitted by the ExecuteRequests loop one per record, in
order, carrying the record's RequestId, Result = IO_PENDING, and the
write/read classification of the branch that handled the record. -/
theorem execLoop_stubs (p : ExecParams) :
    ∀ (rs : List ReqRecord) (s : ExecState),
      ∃ ts, (execLoop p s rs).stubs = s.stubs ++ ts ∧
        List.Forall₂
          (fun (st : RespStub) (r : ReqRecord) =>
            st.requestId = r.requestId ∧ st.result = p.ioPending ∧
              (st.isRead = true ↔ r.reqSize - u32Bytes ≤ p.reqHdrBytes))
          ts rs := by
  intro rs
  induction rs with
  | nil => intro s; exact ⟨[], by simp [execLoop], List.Forall₂.nil⟩
  | cons r rs ih =>
    intro s
    obtain ⟨ts, hts, hf⟩ := ih (execStep p s r)
    by_cases hw : p.reqHdrBytes < r.reqSize - u32Bytes
    · refine ⟨⟨s.progressResp, u32Bytes + p.ackHdrBytes, r.requestId,
        p.ioPending, false⟩ :: ts, ?_, ?_⟩
      · have hstep : (execStep p s r).stubs = s.stubs ++
            [⟨s.progressResp, u32Bytes + p.ackHdrBytes, r.requestId,
              p.ioPending, false⟩] := by
          simp only [execStep]
          rw [if_pos hw]
        rw [execLoop, hts, hstep, List.append_assoc]
        rfl
      · exact List.Forall₂.cons ⟨rfl, rfl, by simp; omega⟩ hf
    · refine ⟨⟨s.progressResp,
        (if (u32Bytes + p.ackHdrBytes + r.bytes) %
              (u32Bytes + p.ackHdrBytes) ≠ 0 then
          u32Bytes + p.ackHdrBytes + r.bytes +
            ((u32Bytes + p.ackHdrBytes) -
              (u32Bytes + p.ackHdrBytes + r.bytes) %
                (u32Bytes + p.ackHdrBytes))
        else u32Bytes + p.ackHdrBytes + r.bytes),
        r.requestId, p.ioPending, true⟩ :: ts, ?_, ?_⟩
      · have hstep : (execStep p s r).stubs = s.stubs ++
            [⟨s.progressResp,
              (if (u32Bytes + p.ackHdrBytes + r.bytes) %
                    (u32Bytes + p.ackHdrBytes) ≠ 0 then
                u32Bytes + p.ackHdrBytes + r.bytes +
                  ((u32Bytes + p.ackHdrBytes) -
                    (u32Bytes + p.ackHdrBytes + r.bytes) %
                      (u32Bytes + p.ackHdrBytes))
              else u32Bytes + p.ackHdrBytes + r.bytes),
              r.requestId, p.ioPending, true⟩] := by
          simp only [execStep]
          rw [if_neg hw]
        rw [execLoop, hts, hstep, List.append_assoc]
        rfl
      · exact List.Forall₂.cons ⟨rfl, rfl, by simp; omega⟩ hf

/-- The reservation cursor of the ExecuteRequests loop always equals the
initial TailA plus the running totalRespSize, modulo the response ring
size. -/
theorem execLoop_progressResp (p : ExecParams) (tail0 : Nat) :
    ∀ (rs : List ReqRecord) (s : ExecState),
      s.progressResp = (tail0 + s.totalRespSize) % p.respRingBytes →
      (execLoop p s rs).progressResp =
        (tail0 + (execLoop p s rs).totalRespSize) % p.respRingBytes := by
  intro rs
  induction rs with
  | nil => intro s h; simpa [execLoop] using h
  | cons r rs ih =>
    intro s h
    rw [execLoop]
    apply ih
    simp only [execStep]
    split <;>
      (dsimp only
       rw [wrapAdd_eq_mod, h, Nat.mod_add_mod]
       congr 1
       omega)

/-- The completion-sweep loop, started at a record boundary of a batch,
stops at a record boundary and crosses only records whose Result is no
longer IO_PENDING; this holds for every fuel. -/
theorem sweepLoop_batch_spec (ring ioPending alignment tailC n : Nat)
    (recAt : Nat → RespRec) (sizes : Nat → Nat)
    (hC : tailC < ring)
    (hT : (recAt tailC).size < ring)
    (htot : (recAt tailC).size = alignment + (Finset.range n).sum sizes)
    (hsz : ∀ i < n, 0 < sizes i)
    (hrec : ∀ i < n,
      (recAt (batchPos ring tailC alignment sizes i)).size = sizes i) :
    ∀ (fuel k : Nat), k ≤ n →
      ∃ m, k ≤ m ∧ m ≤ n ∧
        sweepLoop ring ioPending recAt tailC (recAt tailC).size fuel
            (batchPos ring tailC alignment sizes k) =
          batchPos ring tailC alignment sizes m ∧
        ∀ i, k ≤ i → i < m →
          (recAt (batchPos ring tailC alignment sizes i)).result ≠
            ioPending := by
  intro fuel
  induction fuel with
  | zero =>
    intro k hk
    exact ⟨k, le_refl k, hk, rfl, fun i h1 h2 => absurd h1 (by omega)⟩
  | succ fuel ih =>
    intro k hk
    rw [sweepLoop]
    by_cases hstop :
        DistanceBetweenPointers (batchPos ring tailC alignment sizes k)
          tailC ring = (recAt tailC).size
    · rw [if_pos hstop]
      exact ⟨k, le_refl k, hk, rfl, fun i h1 h2 => absurd h1 (by omega)⟩
    · rw [if_neg hstop]
      have hle : (Finset.range k).sum sizes ≤
          (Finset.range n).sum sizes :=
        Finset.sum_le_sum_of_subset (Finset.range_subset.mpr hk)
      have hdk : DistanceBetweenPointers
          (batchPos ring tailC alignment sizes k) tailC ring =
          alignment + (Finset.range k).sum sizes := by
        unfold batchPos
        rw [Nat.add_assoc]
        exact distance_add_mod ring tailC _ hC (by omega)
      have hkn : k < n := by
        rcases Nat.lt_or_ge k n with h | h
        · exact h
        · exfalso
          have hkeq : k = n := by omega
          subst hkeq
          exact hstop (by omega)
      by_cases hpend :
          (recAt (batchPos ring tailC alignment sizes k)).result = ioPending
      · rw [if_pos hpend]
        exact ⟨k, le_refl k, hk, rfl, fun i h1 h2 => absurd h1 (by omega)⟩
      · rw [if_neg hpend]
        have hstep : wrapAdd (batchPos ring tailC alignment sizes k)
            (recAt (batchPos ring tailC alignment sizes k)).size ring =
            batchPos ring tailC alignment sizes (k + 1) := by
          rw [hrec k hkn, wrapAdd_eq_mod]
          unfold batchPos
          rw [Nat.mod_add_mod]
          congr 1
          have hs : (Finset.range (k + 1)).sum sizes =
              (Finset.range k).sum sizes + sizes k :=
            Finset.sum_range_succ sizes k
          rw [hs]
          omega
        rw [hstep]
        obtain ⟨m, h1, h2, h3, h4⟩ := ih (k + 1) hkn
        refine ⟨m, by omega, h2, h3, ?_⟩
        intro i hi1 hi2
        rcases Nat.eq_or_lt_of_le hi1 with h | h
        · rw [← h]
          exact hpend
        · exact h4 i (by omega) hi2

/-! ## Claim theorems -/

/-- C1: on a BUFF_READ_REQUEST_META completion, if the fetched tail equals
the local head or differs from the fetched progress, only the request-meta
read is re-posted and nothing else changes; if progress > head, exactly
one data read of progress - head bytes is posted and the split state
becomes NOT_SPLIT; if progress < head, two data reads of sizes progress
and REQUEST_RING_BYTES - head are posted and the split state becomes
SPLIT; in both ready cases the local head becomes progress and the
head-update write is posted. -/
theorem buffReadRequestMeta_cases (reqRingBytes head progress tail : Nat) :
    ((tail = head ∨ tail ≠ progress) →
      buffReadRequestMeta reqRingBytes head progress tail =
        ⟨[.reqMetaRead], head, none⟩) ∧
    (tail ≠ head → tail = progress → head < progress →
      buffReadRequestMeta reqRingBytes head progress tail =
        ⟨[.reqDataRead (progress - head), .reqMetaWrite], progress,
          some .notSplit⟩) ∧
    (tail ≠ head → tail = progress → progress < head →
      buffReadRequestMeta reqRingBytes head progress tail =
        ⟨[.reqDataReadSplit progress, .reqDataRead (reqRingBytes - head),
            .reqMetaWrite], progress, some .split⟩) := by
  refine ⟨fun h => ?_, fun h1 h2 h3 => ?_, fun h1 h2 h3 => ?_⟩
  · rw [buffReadRequestMeta, if_pos h]
  · rw [buffReadRequestMeta, if_neg (by omega), if_pos h3]
  · rw [buffReadRequestMeta, if_neg (by omega), if_neg (by omega)]

/-- Witness for C1 at concrete inputs: ready contiguous, ready wrapped,
and not-ready. -/
theorem buffReadRequestMeta_cases_witness :
    buffReadRequestMeta 4096 100 300 300 =
      ⟨[.reqDataRead 200, .reqMetaWrite], 300, some .notSplit⟩ ∧
    buffReadRequestMeta 4096 300 100 100 =
      ⟨[.reqDataReadSplit 100, .reqDataRead 3796, .reqMetaWrite], 100,
        some .split⟩ ∧
    buffReadRequestMeta 4096 100 300 100 = ⟨[.reqMetaRead], 100, none⟩ :=
  ⟨(buffReadRequestMeta_cases 4096 100 300 300).2.1 (by decide) (by decide)
      (by decide),
   (buffReadRequestMeta_cases 4096 300 100 100).2.2 (by decide) (by decide)
      (by decide),
   (buffReadRequestMeta_cases 4096 100 300 100).1 (by decide)⟩

/-- C4: on a BUFF_READ_RESPONSE_META completion with TailC ≠ TailB, if the
fetched head and progress words differ, or the free distance from TailC to
the fetched head is smaller than the pending response bytes, only the
response-meta read is re-posted and TailC does not move; only when the
range is free are the one or two response-data writes posted (the split
write first when the range wraps) followed by the TailC meta write, with
TailC advanced by the pending bytes modulo the ring size. -/
theorem buffReadResponseMeta_cases
    (respRingBytes tailB tailC progress head : Nat) (hpend : tailC ≠ tailB) :
    (head ≠ progress →
      buffReadResponseMeta respRingBytes tailB tailC progress head =
        ⟨[.respMetaRead], tailC, none⟩) ∧
    (head = progress →
      (if head ≤ tailC then head + respRingBytes - tailC else head - tailC) <
          DistanceBetweenPointers tailB tailC respRingBytes →
      buffReadResponseMeta respRingBytes tailB tailC progress head =
        ⟨[.respMetaRead], tailC, none⟩) ∧
    (head = progress →
      DistanceBetweenPointers tailB tailC respRingBytes ≤
        (if head ≤ tailC then head + respRingBytes - tailC
          else head - tailC) →
      tailC + DistanceBetweenPointers tailB tailC respRingBytes ≤
        respRingBytes →
      buffReadResponseMeta respRingBytes tailB tailC progress head =
        ⟨[.respDataWrite (DistanceBetweenPointers tailB tailC respRingBytes),
            .respMetaWrite],
          (tailC + DistanceBetweenPointers tailB tailC respRingBytes) %
            respRingBytes, some .notSplit⟩) ∧
    (head = progress →
      DistanceBetweenPointers tailB tailC respRingBytes ≤
        (if head ≤ tailC then head + respRingBytes - tailC
          else head - tailC) →
      respRingBytes <
        tailC + DistanceBetweenPointers tailB tailC respRingBytes →
      buffReadResponseMeta respRingBytes tailB tailC progress head =
        ⟨[.respDataWriteSplit
            (DistanceBetweenPointers tailB tailC respRingBytes -
              (respRingBytes - tailC)),
          .respDataWrite (respRingBytes - tailC), .respMetaWrite],
          (tailC + DistanceBetweenPointers tailB tailC respRingBytes) %
            respRingBytes, some .split⟩) := by
  refine ⟨fun h1 => ?_, fun h1 h2 => ?_, fun h1 h2 h3 => ?_,
    fun h1 h2 h3 => ?_⟩
  · rw [buffReadResponseMeta, if_neg hpend, if_pos h1]
  · rw [buffReadResponseMeta, if_neg hpend, if_neg (by omega), if_pos h2]
  · rw [buffReadResponseMeta, if_neg hpend, if_neg (by omega),
      if_neg (by omega), if_pos h3]
  · rw [buffReadResponseMeta, if_neg hpend, if_neg (by omega),
      if_neg (by omega), if_neg (by omega)]

/-- Witness for C4 at concrete inputs: host mid-update, range not free,
free contiguous, and free wrapped. -/
theorem buffReadResponseMeta_cases_witness :
    buffReadResponseMeta 4096 200 100 50 60 = ⟨[.respMetaRead], 100, none⟩ ∧
    buffReadResponseMeta 4096 200 100 150 150 =
      ⟨[.respMetaRead], 100, none⟩ ∧
    buffReadResponseMeta 4096 200 100 100 100 =
      ⟨[.respDataWrite 100, .respMetaWrite], 200, some .notSplit⟩ ∧
    buffReadResponseMeta 4096 100 4000 4000 4000 =
      ⟨[.respDataWriteSplit 100, .respDataWrite 96, .respMetaWrite], 100,
        some .split⟩ :=
  ⟨(buffReadResponseMeta_cases 4096 200 100 50 60 (by decide)).1
      (by decide),
   (buffReadResponseMeta_cases 4096 200 100 150 150 (by decide)).2.1
      (by decide) (by decide),
   (buffReadResponseMeta_cases 4096 200 100 100 100 (by decide)).2.2.1
      (by decide) (by decide) (by decide),
   (buffReadResponseMeta_cases 4096 100 4000 4000 4000 (by decide)).2.2.2
      (by decide) (by decide) (by decide)⟩

/-- C2: insertion into the tiny full table fails with the full error (-1)
after hitting the depth bound, and the rollback walk does NOT leave the
table bitwise identical to its pre-insert state: every element is
restored, but the hash stamps of the touched buckets come back as the
elements' second hashes (5 and 2) instead of the original first hashes
(4 and 3), because line 199 of CacheTable.c writes carrier->Hash2 after
swapping the carrier's hashes.  The displaced-out carrier the walk ends
with does equal the original input item, as the claim states. -/
theorem addToCacheTable_rollback_not_identical :
    (AddToCacheTable pTiny tTiny ⟨3, 33⟩).2 = -1 ∧
    (AddToCacheTable pTiny tTiny ⟨3, 33⟩).1 ≠ tTiny ∧
    ((AddToCacheTable pTiny tTiny ⟨3, 33⟩).1.bucketAt 0).elems =
      (tTiny.bucketAt 0).elems ∧
    ((AddToCacheTable pTiny tTiny ⟨3, 33⟩).1.bucketAt 1).elems =
      (tTiny.bucketAt 1).elems ∧
    ((AddToCacheTable pTiny tTiny ⟨3, 33⟩).1.bucketAt 0).stamps = [5] ∧
    (tTiny.bucketAt 0).stamps = [4] ∧
    ((AddToCacheTable pTiny tTiny ⟨3, 33⟩).1.bucketAt 1).stamps = [2] ∧
    (tTiny.bucketAt 1).stamps = [3] ∧
    (rollbackLoop pTiny pTiny.maxDepth
        (addLoop pTiny pTiny.maxDepth tTiny ⟨⟨3, 33⟩, 6, 7⟩ 0).table
        (addLoop pTiny pTiny.maxDepth tTiny ⟨⟨3, 33⟩, 6, 7⟩ 0).carrier
        (addLoop pTiny pTiny.maxDepth tTiny ⟨⟨3, 33⟩, 6, 7⟩ 0).offset).2.1.item
      = ⟨3, 33⟩ := by decide

/-- C8: deleting key 1, which resides in its second-hash bucket of the
tiny table, leaves that bucket's Occ flag SET to 1 on return (line 304 of
CacheTable.c), although the element and stamp are cleared; a subsequent
lookup then fails through the occupied-bucket path. -/
theorem deleteFromCacheTable_second_hash_leaves_occ :
    ((DeleteFromCacheTable pTiny tTiny 1).bucketAt 1).occ = true ∧
    ((DeleteFromCacheTable pTiny tTiny 1).bucketAt 1).stamps = [0] ∧
    LookUpCacheTable pTiny (DeleteFromCacheTable pTiny tTiny 1) 1 =
      none := by decide

/-- C7 counterexample: after the five successful insertions
(1,11), (2,20), (3,30), (1,12), (4,40) into the pStale table, the most
recently inserted value for key 1 is 12, yet LookUpCacheTable returns the
stale item (1,11): the displaced stale copy of key 1 overwrote the fresh
copy in place during the fifth insertion's displacement chain. -/
theorem lookUpCacheTable_stale_after_displaced_reinsert :
    (AddToCacheTable pStale (emptyTable 2 2) ⟨1, 11⟩).2 = 0 ∧
    (AddToCacheTable pStale tStaleA ⟨2, 20⟩).2 = 0 ∧
    (AddToCacheTable pStale tStaleB ⟨3, 30⟩).2 = 0 ∧
    (AddToCacheTable pStale tStaleC ⟨1, 12⟩).2 = 0 ∧
    (AddToCacheTable pStale tStaleD ⟨4, 40⟩).2 = 0 ∧
    LookUpCacheTable pStale tStale 1 = some ⟨1, 11⟩ ∧
    some (⟨1, 11⟩ : CacheItem) ≠ some (⟨1, 12⟩ : CacheItem) := by decide

/-- C5: over any ExecuteRequests pass on framed records (each at least a
u32 prefix plus a request header, totalling at most
REQUEST_RING_BYTES - 1), the response stubs carry RequestIds equal, in
exactly the input ring order, to the input records' RequestIds (hence a
permutation of them), every stub carries Result = IO_PENDING, and a stub
is classified read precisely when its record's size prefix equals
sizeof(u32) + sizeof(BuffMsgF2BReqHeader), write when it is larger. -/
theorem executeRequests_stub_order_classification (p : ExecParams)
    (head tailA tailB nextCtx0 : Nat) (recs : List ReqRecord)
    (hwf : ∀ r ∈ recs, u32Bytes + p.reqHdrBytes ≤ r.reqSize)
    (hfit : (recs.map (·.reqSize)).sum ≤ p.reqRingBytes - 1) :
    ((ExecuteRequests p head tailA tailB nextCtx0 recs).2.stubs.map
        (·.requestId) = recs.map (·.requestId)) ∧
    List.Forall₂
      (fun (st : RespStub) (r : ReqRecord) =>
        st.requestId = r.requestId ∧ st.result = p.ioPending ∧
          (st.isRead = true ↔ r.reqSize = u32Bytes + p.reqHdrBytes))
      (ExecuteRequests p head tailA tailB nextCtx0 recs).2.stubs recs := by
  have main : ∀ s1 : ExecState, s1.stubs = [] →
      ((execLoop p s1 recs).stubs.map (·.requestId) =
        recs.map (·.requestId)) ∧
      List.Forall₂
        (fun (st : RespStub) (r : ReqRecord) =>
          st.requestId = r.requestId ∧ st.result = p.ioPending ∧
            (st.isRead = true ↔ r.reqSize = u32Bytes + p.reqHdrBytes))
        (execLoop p s1 recs).stubs recs := by
    intro s1 hs1
    obtain ⟨ts, hts, hf⟩ := execLoop_stubs p recs s1
    rw [hts, hs1, List.nil_append]
    have hconv : ∀ (ts2 : List RespStub) (rs2 : List ReqRecord),
        List.Forall₂
          (fun (st : RespStub) (r : ReqRecord) =>
            st.requestId = r.requestId ∧ st.result = p.ioPending ∧
              (st.isRead = true ↔ r.reqSize - u32Bytes ≤ p.reqHdrBytes))
          ts2 rs2 →
        (∀ r ∈ rs2, u32Bytes + p.reqHdrBytes ≤ r.reqSize) →
        List.Forall₂
          (fun (st : RespStub) (r : ReqRecord) =>
            st.requestId = r.requestId ∧ st.result = p.ioPending ∧
              (st.isRead = true ↔ r.reqSize = u32Bytes + p.reqHdrBytes))
          ts2 rs2 := by
      intro ts2 rs2 hrel
      induction hrel with
      | nil => intro _; exact .nil
      | cons h1 htl ih =>
        intro hwf2
        refine .cons ⟨h1.1, h1.2.1, ?_⟩
          (ih fun r hr => hwf2 r (List.mem_cons_of_mem _ hr))
        have hge := hwf2 _ (List.mem_cons_self _ _)
        rw [h1.2.2]
        omega
    have hclaim := hconv ts recs hf hwf
    refine ⟨?_, hclaim⟩
    have hmap : ∀ (ts2 : List RespStub) (rs2 : List ReqRecord),
        List.Forall₂
          (fun (st : RespStub) (r : ReqRecord) =>
            st.requestId = r.requestId ∧ st.result = p.ioPending ∧
              (st.isRead = true ↔ r.reqSize = u32Bytes + p.reqHdrBytes))
          ts2 rs2 →
        ts2.map (·.requestId) = rs2.map (·.requestId) := by
      intro ts2 rs2 hrel
      induction hrel with
      | nil => rfl
      | cons h1 _ ih => simp [h1.1, ih]
    exact hmap ts recs hclaim
  have hsnd : (ExecuteRequests p head tailA tailB nextCtx0 recs).2 =
      execLoop p
        (if p.batchEnabled then
          { progressReq :=
              (if (recs.map (·.reqSize)).sum ≤ head then
                head - (recs.map (·.reqSize)).sum
              else p.reqRingBytes + head - (recs.map (·.reqSize)).sum),
            progressResp := wrapAdd tailA p.alignment p.respRingBytes,
            bytesParsed := 0, nextCtx := nextCtx0,
            totalRespSize := p.alignment, stubs := [] }
        else
          { progressReq :=
              (if (recs.map (·.reqSize)).sum ≤ head then
                head - (recs.map (·.reqSize)).sum
              else p.reqRingBytes + head - (recs.map (·.reqSize)).sum),
            progressResp := tailA, bytesParsed := 0, nextCtx := nextCtx0,
            totalRespSize := 0, stubs := [] })
        recs := by
    simp only [ExecuteRequests, pair_ite_snd]
  rw [hsnd]
  apply main
  split <;> rfl

/-- Witness for C5: a 48-byte write record (RequestId 7) followed by a
32-byte read record (RequestId 9). -/
theorem executeRequests_stub_order_classification_witness :
    ((ExecuteRequests pExecW 80 0 0 0 recsW).2.stubs.map (·.requestId) =
      [7, 9]) ∧
    List.Forall₂
      (fun (st : RespStub) (r : ReqRecord) =>
        st.requestId = r.requestId ∧ st.result = pExecW.ioPending ∧
          (st.isRead = true ↔ r.reqSize = u32Bytes + pExecW.reqHdrBytes))
      (ExecuteRequests pExecW 80 0 0 0 recsW).2.stubs recsW :=
  ⟨(executeRequests_stub_order_classification pExecW 80 0 0 0 recsW
      (by decide) (by decide)).1,
   (executeRequests_stub_order_classification pExecW 80 0 0 0 recsW
      (by decide) (by decide)).2⟩

/-- C6: an ExecuteRequests pass whose total reserved response bytes
(batch framing included) reach or exceed the free response-ring capacity
measured from TailA to TailB aborts the process; otherwise TailA advances
to TailA + totalRespSize modulo the ring, and the occupied span from
TailB to the new TailA grows by exactly totalRespSize while staying below
the ring size, so TailA never overtakes the consumed position in the
modular sense. -/
theorem executeRequests_overflow_aborts_or_advances (p : ExecParams)
    (head tailA tailB nextCtx0 : Nat) (recs : List ReqRecord)
    (hA : tailA < p.respRingBytes) (hB : tailB < p.respRingBytes) :
    ((if tailB ≤ tailA then p.respRingBytes - tailA + tailB
        else tailB - tailA) ≤
        (ExecuteRequests p head tailA tailB nextCtx0 recs).2.totalRespSize →
      (ExecuteRequests p head tailA tailB nextCtx0 recs).1 = .aborted) ∧
    ((ExecuteRequests p head tailA tailB nextCtx0 recs).2.totalRespSize <
        (if tailB ≤ tailA then p.respRingBytes - tailA + tailB
          else tailB - tailA) →
      (ExecuteRequests p head tailA tailB nextCtx0 recs).1 =
        .ok ((tailA +
          (ExecuteRequests p head tailA tailB nextCtx0 recs).2.totalRespSize)
            % p.respRingBytes) ∧
      DistanceBetweenPointers
          ((tailA +
            (ExecuteRequests p head tailA tailB nextCtx0
              recs).2.totalRespSize) % p.respRingBytes)
          tailB p.respRingBytes =
        DistanceBetweenPointers tailA tailB p.respRingBytes +
          (ExecuteRequests p head tailA tailB nextCtx0
            recs).2.totalRespSize ∧
      DistanceBetweenPointers
          ((tailA +
            (ExecuteRequests p head tailA tailB nextCtx0
              recs).2.totalRespSize) % p.respRingBytes)
          tailB p.respRingBytes < p.respRingBytes) := by
  have hpos : 0 < p.respRingBytes := by omega
  have hprogress :
      (ExecuteRequests p head tailA tailB nextCtx0 recs).2.progressResp =
        (tailA +
          (ExecuteRequests p head tailA tailB nextCtx0 recs).2.totalRespSize)
          % p.respRingBytes := by
    simp only [ExecuteRequests, pair_ite_snd]
    apply execLoop_progressResp
    split
    · dsimp only
      rw [wrapAdd_eq_mod]
    · dsimp only
      rw [Nat.add_zero, Nat.mod_eq_of_lt hA]
  have hout : (ExecuteRequests p head tailA tailB nextCtx0 recs).1 =
      if (if tailB ≤ tailA then p.respRingBytes - tailA + tailB
          else tailB - tailA) ≤
        (ExecuteRequests p head tailA tailB nextCtx0 recs).2.totalRespSize
      then .aborted
      else .ok
        (ExecuteRequests p head tailA tailB nextCtx0 recs).2.progressResp := by
    simp only [ExecuteRequests, pair_ite_fst, pair_ite_snd]
  have hcap :
      (if tailB ≤ tailA then p.respRingBytes - tailA + tailB
        else tailB - tailA) =
      p.respRingBytes - DistanceBetweenPointers tailA tailB p.respRingBytes
        := by
    unfold DistanceBetweenPointers
    split <;> omega
  have hdlt : DistanceBetweenPointers tailA tailB p.respRingBytes <
      p.respRingBytes := by
    unfold DistanceBetweenPointers
    split <;> omega
  constructor
  · intro hge
    rw [hout, if_pos hge]
  · intro hlt
    have hsum : DistanceBetweenPointers tailA tailB p.respRingBytes +
        (ExecuteRequests p head tailA tailB nextCtx0 recs).2.totalRespSize
        < p.respRingBytes := by omega
    have hd := distance_add_of_lt p.respRingBytes tailA tailB
      (ExecuteRequests p head tailA tailB nextCtx0 recs).2.totalRespSize
      hA hB hsum
    refine ⟨?_, hd, by omega⟩
    rw [hout, if_neg (by omega), hprogress]

/-- Witness for C6: the two-record pass reserves 48 bytes against a
4096-byte free capacity, so TailA advances to 48 and the occupied span is
48 < 4096. -/
theorem executeRequests_overflow_witness :
    (ExecuteRequests pExecW 80 0 0 0 recsW).1 = .ok 48 ∧
    DistanceBetweenPointers 48 0 4096 = 48 :=
  ⟨by
    have h := (executeRequests_overflow_aborts_or_advances pExecW 80 0 0 0
      recsW (by decide) (by decide)).2 (by decide)
    have h1 := h.1
    rwa [show (ExecuteRequests pExecW 80 0 0 0 recsW).2.totalRespSize = 48
      from by decide] at h1,
   by decide⟩

/-- C3: a batch is published — the response-meta read that leads to the
host-side DMA writes of [TailC, TailB) is posted by the completion sweep —
only when the sweep has advanced TailB across every framed response of
the batch (laid out at batchPos 0, .., batchPos (n-1) past the framing
slot at TailC, with the batch u32 at TailC equal to the batch byte count)
with its Result word no longer IO_PENDING; records already behind TailB
were crossed by earlier sweeps under the same rule (hprev), so a response
whose Result is still IO_PENDING is never written to the host's response
ring. -/
theorem completionSweep_publishes_only_completed
    (ring ioPending alignment tailC n tailA tailB fuel k : Nat)
    (recAt : Nat → RespRec) (sizes : Nat → Nat)
    (hC : tailC < ring)
    (halign : 0 < alignment)
    (hT : (recAt tailC).size < ring)
    (htot : (recAt tailC).size = alignment + (Finset.range n).sum sizes)
    (hsz : ∀ i < n, 0 < sizes i)
    (hrec : ∀ i < n,
      (recAt (batchPos ring tailC alignment sizes i)).size = sizes i)
    (hk : k ≤ n)
    (htb : tailB = batchPos ring tailC alignment sizes k ∨
      (tailB = tailC ∧ k = 0))
    (hprev : ∀ i < k,
      (recAt (batchPos ring tailC alignment sizes i)).result ≠ ioPending) :
    (CheckAndProcessIOCompletions ring ioPending alignment recAt tailA
        tailB tailC fuel).postedMetaRead = true →
    ∀ i < n,
      (recAt (batchPos ring tailC alignment sizes i)).result ≠
        ioPending := by
  intro hpost
  simp only [CheckAndProcessIOCompletions] at hpost
  by_cases hAB : tailA = tailB
  · rw [if_pos hAB] at hpost
    simp at hpost
  rw [if_neg hAB] at hpost
  have hd : ∀ j, j ≤ n →
      DistanceBetweenPointers (batchPos ring tailC alignment sizes j)
        tailC ring = alignment + (Finset.range j).sum sizes := by
    intro j hj
    have hle : (Finset.range j).sum sizes ≤ (Finset.range n).sum sizes :=
      Finset.sum_le_sum_of_subset (Finset.range_subset.mpr hj)
    unfold batchPos
    rw [Nat.add_assoc]
    exact distance_add_mod ring tailC _ hC (by omega)
  have hhead1 :
      (if tailB = tailC then wrapAdd tailB alignment ring else tailB) =
        batchPos ring tailC alignment sizes k := by
    rcases htb with h | ⟨h, hk0⟩
    · subst h
      have hneq : batchPos ring tailC alignment sizes k ≠ tailC := by
        intro hEq
        have h0 := hd k hk
        rw [hEq, distanceBetweenPointers_self] at h0
        omega
      rw [if_neg hneq]
    · subst hk0
      subst h
      rw [if_pos rfl, wrapAdd_eq_mod]
      unfold batchPos
      simp
  rw [hhead1] at hpost
  obtain ⟨m, h1, h2, h3, h4⟩ := sweepLoop_batch_spec ring ioPending
    alignment tailC n recAt sizes hC hT htot hsz hrec fuel k hk
  rw [h3] at hpost
  by_cases hne : batchPos ring tailC alignment sizes m ≠ tailB
  · rw [if_pos hne] at hpost
    have hdist := of_decide_eq_true hpost
    have hdm := hd m h2
    have hmn : m = n := by
      by_contra hmn
      have hlt : m < n := by omega
      have hle : (Finset.range (m + 1)).sum sizes ≤
          (Finset.range n).sum sizes :=
        Finset.sum_le_sum_of_subset (Finset.range_subset.mpr (by omega))
      have hs : (Finset.range (m + 1)).sum sizes =
          (Finset.range m).sum sizes + sizes m :=
        Finset.sum_range_succ sizes m
      have hszm := hsz m hlt
      omega
    subst hmn
    intro i hi
    rcases Nat.lt_or_ge i k with h | h
    · exact hprev i h
    · exact h4 i h hi
  · rw [if_neg hne] at hpost
    simp at hpost

/-- Witness for C3: a 32-byte batch of two complete 12-byte responses at
offsets 8 and 20 of a 64-byte ring; the sweep from the batch start posts
the publication poll and indeed every record is complete. -/
theorem completionSweep_publishes_only_completed_witness :
    (CheckAndProcessIOCompletions 64 1 8 recAtW 32 0 0 5).postedMetaRead
        = true ∧
    ∀ i < 2, (recAtW (batchPos 64 0 8 sizesW i)).result ≠ 1 :=
  ⟨by decide,
   completionSweep_publishes_only_completed 64 1 8 0 2 32 0 5 0 recAtW
      sizesW (by decide) (by decide) (by decide) (by decide)
      (by decide) (by decide) (by decide)
      (Or.inr ⟨rfl, rfl⟩) (by omega) (by decide)⟩

/-- C7 amended: if at the time of the re-insert key k still resides in
its primary bucket — some slot e of bucket h1(k) & mask holds a nonzero
stamp h1(k) and key k, every earlier slot carries a nonzero stamp and
does not match, and the bucket is not marked occupied — then
AddToCacheTable(k, v2) succeeds by updating that slot's value in place:
the table changes only at that slot's item (no second copy of k is
created and no stamp changes), and LookUpCacheTable then returns v2.
When the key has been displaced to its secondary bucket this fails (see
the stale-lookup counterexample). -/
theorem addToCacheTable_update_in_place (p : Params) (t : Table)
    (k v2 e : Nat)
    (hz : p.h1 k ≠ 0)
    (hd : 0 < p.maxDepth)
    (hpos : p.h1 k &&& p.mask < t.buckets.length)
    (hlen : (t.bucketAt (p.h1 k &&& p.mask)).stamps.length =
      (t.bucketAt (p.h1 k &&& p.mask)).elems.length)
    (he : e < (t.bucketAt (p.h1 k &&& p.mask)).stamps.length)
    (hstamp : (t.bucketAt (p.h1 k &&& p.mask)).stamps.getD e 0 = p.h1 k)
    (hkey :
      ((t.bucketAt (p.h1 k &&& p.mask)).elems.getD e
          defaultElem).item.key = k)
    (hprev : ∀ j < e,
      (t.bucketAt (p.h1 k &&& p.mask)).stamps.getD j 0 ≠ 0 ∧
      ¬((t.bucketAt (p.h1 k &&& p.mask)).stamps.getD j 0 = p.h1 k ∧
        ((t.bucketAt (p.h1 k &&& p.mask)).elems.getD j
            defaultElem).item.key = k)) :
    (AddToCacheTable p t ⟨k, v2⟩).2 = 0 ∧
    (AddToCacheTable p t ⟨k, v2⟩).1 =
      t.setBucket (p.h1 k &&& p.mask)
        { t.bucketAt (p.h1 k &&& p.mask) with
          occ := false,
          elems := (t.bucketAt (p.h1 k &&& p.mask)).elems.set e
            { (t.bucketAt (p.h1 k &&& p.mask)).elems.getD e
                defaultElem with item := ⟨k, v2⟩ } } ∧
    LookUpCacheTable p (AddToCacheTable p t ⟨k, v2⟩).1 k =
      some ⟨k, v2⟩ := by
  obtain ⟨d, hdd⟩ : ∃ d, p.maxDepth = d + 1 := ⟨p.maxDepth - 1, by omega⟩
  set pos := p.h1 k &&& p.mask with hposdef
  set bkt := t.bucketAt pos with hbkt
  set newEl : CacheElement :=
    { bkt.elems.getD e defaultElem with item := ⟨k, v2⟩ } with hnew
  set bkt1 : Bucket :=
    { bkt with occ := false, elems := bkt.elems.set e newEl } with hbkt1
  have hscan :
      addScan bkt.stamps bkt.elems (p.h1 k) k = some (.matched e) := by
    have := addScanFrom_matched (p.h1 k) k hz bkt.stamps bkt.elems e 0
      he hlen hstamp hkey hprev
    simpa [addScan] using this
  have hadd : AddToCacheTable p t ⟨k, v2⟩ =
      (t.setBucket pos bkt1, 0) := by
    rw [AddToCacheTable, hdd]
    simp only [addLoop, hscan]
    rw [if_pos trivial]
  refine ⟨by rw [hadd], by rw [hadd], ?_⟩
  have ht1 : (AddToCacheTable p t ⟨k, v2⟩).1.bucketAt pos = bkt1 := by
    rw [hadd]
    exact bucketAt_setBucket_self t pos bkt1 hpos
  have hfind : findKeyIdx bkt1.stamps bkt1.elems (p.h1 k) k = some e := by
    have hlook := findKeyIdxFrom_found (p.h1 k) k bkt1.stamps bkt1.elems e 0
      (by simpa [hbkt1] using he)
      (by simpa [hbkt1] using hlen)
      (by simpa [hbkt1] using hstamp)
      ?_ ?_
    · simpa [findKeyIdx] using hlook
    · have : bkt1.elems.getD e defaultElem = newEl := by
        rw [hbkt1]
        exact getD_set_self bkt.elems e newEl defaultElem (by omega)
      rw [this, hnew]
    · intro j hj
      have hne : e ≠ j := by omega
      have : bkt1.elems.getD j defaultElem = bkt.elems.getD j defaultElem := by
        rw [hbkt1]
        exact getD_set_ne bkt.elems e j newEl defaultElem hne
      rw [hbkt1]
      simp only [this]
      exact (hprev j hj).2
  rw [LookUpCacheTable, ht1]
  have hocc1 : bkt1.occ = false := by rw [hbkt1]
  rw [hocc1]
  simp only [Bool.false_eq_true, if_false, hfind]
  have : bkt1.elems.getD e defaultElem = newEl := by
    rw [hbkt1]
    exact getD_set_self bkt.elems e newEl defaultElem (by omega)
  rw [this, hnew]

/-- Witness for the in-place update theorem: key 1 with value 5 sits in
slot 0 of its primary bucket of tUpd; re-inserting (1, 7) succeeds and
lookup returns 7. -/
theorem addToCacheTable_update_in_place_witness :
    (AddToCacheTable pUpd tUpd ⟨1, 7⟩).2 = 0 ∧
    LookUpCacheTable pUpd (AddToCacheTable pUpd tUpd ⟨1, 7⟩).1 1 =
      some ⟨1, 7⟩ :=
  ⟨(addToCacheTable_update_in_place pUpd tUpd 1 7 0 (by decide) (by decide)
      (by decide) (by decide) (by decide) (by decide) (by decide)
      (by decide)).1,
   (addToCacheTable_update_in_place pUpd tUpd 1 7 0 (by decide) (by decide)
      (by decide) (by decide) (by decide) (by decide) (by decide)
      (by decide)).2.2⟩

/-- C9: the RDMA_CM_EVENT_ESTABLISHED handler leaves the slot state
unchanged when DDS_STORAGE_FILE_BACKEND_VERBOSE is not compiled in — the
CONNECTED assignment sits inside the verbose-only block — so the control
and buffer CQ passes, which require CONN_STATE_CONNECTED, keep skipping
the slot; only the verbose build performs the claimed transition. -/
theorem established_without_verbose_leaves_state :
    processEstablished false .occupied = .occupied ∧
    cqPassProcesses (processEstablished false .occupied) = false ∧
    processEstablished true .occupied = .connected := by decide

/-- C10: the buffer CONNECT_REQUEST scan (bounded by MaxClients) and the
FindConnId buffer scan (bounded by MaxBuffs) touch only in-bounds entries
of the MaxClients-sized BuffConns array that were assigned identities by
the MaxBuffs-bounded initialization loop exactly when MaxBuffs equals
MaxClients. -/
theorem buffConnScans_wellFormed_iff (maxClients maxBuffs : Nat) :
    ((∀ i ∈ buffConnectScanIndices maxClients,
        i < allocBuffConnsLength maxClients ∧
          i ∈ allocBuffConnsInitialized maxBuffs) ∧
      ∀ i ∈ findConnIdBuffScanIndices maxBuffs,
        i < allocBuffConnsLength maxClients ∧
          i ∈ allocBuffConnsInitialized maxBuffs) ↔
    maxBuffs = maxClients := by
  simp only [buffConnectScanIndices, findConnIdBuffScanIndices,
    allocBuffConnsInitialized, allocBuffConnsLength, List.mem_range]
  constructor
  · rintro ⟨h1, h2⟩
    rcases Nat.lt_trichotomy maxBuffs maxClients with h | h | h
    · exact absurd (h1 maxBuffs h).2 (lt_irrefl _)
    · exact h
    · exact absurd (h2 maxClients h).1 (lt_irrefl _)
  · rintro rfl
    exact ⟨fun i hi => ⟨hi, hi⟩, fun i hi => ⟨hi, hi⟩⟩

end DDS
